import Mathlib

/-!
Verification of the DDL planning core of the radon sharding proxy
(`src/planner/ddl_plan.go`), as a shallow embedding in Lean 4.

The embedding follows the Go source closely:

* `goReplaceTick n` models `strings.Replace(s, "\x60", "", n)` — removal of
  the first `n` backtick characters of a string.
* `scanGo` models `regexp.ReplaceAllString` for the patterns the planner
  compiles, which are all of the shape `\b(name)\b` where `name` is a table
  identifier (possibly a qualified `db.table`, whose dot Go's regexp treats
  as the any-character metacharacter).  Word boundaries are RE2's ASCII
  `\b`.  The planner never compiles a pattern from an empty name on the
  paths studied here; the model treats an empty pattern as matching nowhere.
* `ddlBuild` is the translation of `DDLPlan.Build`.

The router, the `xcontext` request types and the parsed AST are external
collaborators of the planner (packages `router`, `xcontext` and the
vendored sqlparser); they are modelled from the spec as records of oracles
and plain data, see the doc comments below.
-/

namespace Radon

/-! ## Characters, word boundaries (RE2 ASCII `\b`) -/

/-- An ASCII word character, as in RE2's `\b`: `[0-9A-Za-z_]`.
(`Char.isAlphanum` in Lean core is ASCII-only.) -/
def isWordChar (c : Char) : Bool := c.isAlphanum || c = '_'

/-- Word-character test on an optional character; the edge of the string
counts as a non-word character. -/
def isWordOpt : Option Char → Bool
  | none => false
  | some c => isWordChar c

/-- RE2 `\b` holds between two (optional) characters iff exactly one side
is a word character. -/
def wordBoundary (a b : Option Char) : Bool := isWordOpt a != isWordOpt b

/-! ## `strings.Replace(s, "\x60", "", n)` -/

/-- Models Go `strings.Replace(s, "\x60", "", n)`: removes the first `n`
backtick characters, wherever they occur. -/
def goReplaceTick : Nat → List Char → List Char
  | _, [] => []
  | 0, l => l
  | n + 1, c :: rest =>
    if c = '`' then goReplaceTick n rest else c :: goReplaceTick (n + 1) rest

/-! ## The regex engine fragment used by the planner

The planner compiles `\b(%s)\b` where `%s` is a table name (`fmt.Sprintf`
injects it verbatim).  The model covers the names made of word characters
and dots: a dot is the any-character metacharacter, a word character a
literal.  Quoted MySQL identifiers can also carry other RE2
metacharacters (`$`, parentheses, backslash, ...), which Go would
interpret — or, for patterns on which `regexp.Compile` fails, crash on,
since the code discards the error and uses the nil regexp; such names,
and `$`-references in the replacement text, are outside this model, and
every theorem about the rewriter restricts the table name to word
characters (plus the qualifying dot), where the model coincides with
RE2. -/

inductive RAtom
  | lit (c : Char)
  | anyChar
deriving DecidableEq, Repr

def atomMatches : RAtom → Char → Bool
  | .lit a, c => a = c
  | .anyChar, _ => true

/-- Compile the injected name to a sequence of atoms: a dot becomes the
any-character metacharacter, everything else is a literal.  Faithful to
Go's compilation only on names free of other metacharacters (see the
section comment above); theorems restrict to that domain. -/
def compileAtoms (l : List Char) : List RAtom :=
  l.map fun c => if c = '.' then RAtom.anyChar else RAtom.lit c

/-- Whether the atom sequence matches a prefix of `s` (all atoms are
single-width, so the candidate match is the first `pat.length` chars). -/
def patMatchesAt : List RAtom → List Char → Bool
  | [], _ => true
  | _ :: _, [] => false
  | a :: pa, c :: cs => atomMatches a c && patMatchesAt pa cs

/-- The full condition for `\b(pat)\b` to match at the head of `s`, given
that the original character preceding `s` is `p` (`none` at the start of
the input): the atoms match, and `\b` holds on both ends of the matched
chunk. -/
def bmatchCond (pat : List RAtom) (p : Option Char) (s : List Char) : Bool :=
  !pat.isEmpty && patMatchesAt pat s && wordBoundary p s.head? &&
    wordBoundary ((s.take pat.length).getLast?) ((s.drop pat.length).head?)

/-- Models `regexp.ReplaceAllString` for a `\b(pat)\b` pattern: leftmost,
non-overlapping matches, scanning the original input.  The `Nat` argument
is the number of already-matched characters still to be skipped (matches
are never sought inside a previous match). -/
def scanGo (pat : List RAtom) (rep : List Char) : Nat → Option Char → List Char → List Char
  | _, _, [] => []
  | Nat.succ k, _, c :: rest => scanGo pat rep k (some c) rest
  | 0, p, c :: rest =>
    if bmatchCond pat p (c :: rest) then
      rep ++ scanGo pat rep (pat.length - 1) (some c) rest
    else
      c :: scanGo pat rep 0 (some c) rest

/-- Models `re.ReplaceAllString(raw, rep)` for
`re := regexp.Compile("\\b(" ++ name ++ ")\\b")`, on the domain of the
section comment above: names whose characters are word characters or
dots (so `Compile` succeeds and the atoms are as modelled) and
replacements without `$`-references (the planner's replacements are
backtick-quoted identifiers). -/
def reReplaceAll (name rep raw : String) : String :=
  String.mk (scanGo (compileAtoms name.data) rep.data 0 none raw.data)

/-! ## Data model

The parsed DDL statement is produced by the external sqlparser; the pieces
below are the fields `DDLPlan.Build` consumes. -/

/-- Modelled from the spec: the sqlparser's `ColumnKeyOption` for a column
definition (`col.Type.KeyOpt`); the planner tests for
`ColKeyUnique`, `ColKeyUniqueKey`, `ColKeyPrimary` and `ColKey`. -/
inductive ColumnKeyOption
  | colKeyNone
  | colKeyPrimary
  | colKeySpatialKey
  | colKeyUnique
  | colKeyUniqueKey
  | colKey
deriving DecidableEq, Repr

/-- Modelled from the spec: a parsed column definition (name and
column-level key option). -/
structure ColumnDefinition where
  name : String
  keyOpt : ColumnKeyOption
deriving DecidableEq, Repr

/-- Modelled from the spec: `index.Info` of a parsed index definition —
the unique / primary flags the planner tests. -/
structure IndexInfo where
  unique : Bool
  primary : Bool
deriving DecidableEq, Repr

/-- Modelled from the spec: a parsed index definition. -/
structure IndexDefinition where
  info : IndexInfo
deriving DecidableEq, Repr

/-- Modelled from the spec: the CREATE/ALTER table spec — ordered column
definitions and index definitions. -/
structure TableSpec where
  columns : List ColumnDefinition
  indexes : List IndexDefinition
deriving DecidableEq, Repr

/-- Modelled from the spec: the parsed table reference; `qualifier = ""`
models `node.Table.Qualifier.IsEmpty()`. -/
structure TableName where
  name : String
  qualifier : String
deriving DecidableEq, Repr

/-- Modelled from the spec: the DDL action tag (`node.Action`), one
constructor per action string the planner distinguishes plus those the
spec lists. `createDB` is `sqlparser.CreateDBStr`; DROP DATABASE is a
distinct action string and is not matched by the `CreateDBStr` case. -/
inductive DDLAction
  | createDB
  | dropDB
  | createTable
  | dropTable
  | truncateTable
  | alterEngine
  | alterCharset
  | alterAddColumn
  | alterDropColumn
  | alterModifyColumn
  | createIndex
  | dropIndex
  | createFulltextIndex
deriving DecidableEq, Repr

/-- Modelled from the spec: the parsed DDL node — the fields of
`sqlparser.DDL` that `DDLPlan.Build` reads. -/
structure DDL where
  action : DDLAction
  table : TableName
  dropColumnName : String
  modifyColumnDef : ColumnDefinition
  tableSpec : TableSpec
deriving DecidableEq, Repr

/-- Modelled from the spec: a router segment — one physical table's
coordinates: name, backend, shard-range (already rendered to a string, as
`segment.Range.String()`). -/
structure Segment where
  table : String
  backend : String
  range : String
deriving DecidableEq, Repr

/-- Modelled from the spec: the router consumed through its narrow
interface.  `shardKey db table` returns the sharding column (empty for
non-partitioned tables) or an error; `lookup db table` enumerates all
physical segments (the planner always passes nil bounds). -/
structure Router where
  shardKey : String → String → Except String String
  lookup : String → String → Except String (List Segment)

/-- Modelled from the spec: `xcontext.RequestMode`.  The spec names the
two modes Scatter and Targeted; a freshly created plan carries the zero
value, which is the targeted (normal) mode — `Build` only ever assigns
Scatter, for CREATE DATABASE. -/
inductive RequestMode
  | scatter
  | targeted
deriving DecidableEq, Repr

/-- Modelled from the spec: `xcontext.QueryTuple` — a rewritten SQL text
together with its backend and shard-range. -/
structure QueryTuple where
  query : String
  backend : String
  range : String
deriving DecidableEq, Repr

/-- The `DDLPlan` fields `Build` reads and writes. -/
structure DDLPlan where
  database : String
  rawQuery : String
  node : DDL
  reqMode : RequestMode
  querys : List QueryTuple
deriving DecidableEq, Repr

/-- Translation of `NewDDLPlan`: fresh plan with empty query list and the zero request
mode. -/
def newDDLPlan (database query : String) (node : DDL) : DDLPlan :=
  { database := database, rawQuery := query, node := node,
    reqMode := .targeted, querys := [] }

/-! ## `DDLPlan.Build` -/

/-- Whether a column key option is one of
`ColKeyUnique, ColKeyUniqueKey, ColKeyPrimary, ColKey`. -/
def isUniqueOrKeyOpt : ColumnKeyOption → Bool
  | .colKeyUnique => true
  | .colKeyUniqueKey => true
  | .colKeyPrimary => true
  | .colKey => true
  | _ => false

/-- The constraint error text built by `fmt.Sprintf` in `Build`. -/
def constraintErr (shardKey : String) : String :=
  "The unique/primary constraint should be only defined on the sharding key column[" ++
    shardKey ++ "]"

/-- The `switch node.Action` run when the shard key is non-empty: the
unsupported-operation and constraint checks of `Build`.  Returns the error
message, if any. -/
def checkShardKeyOps (node : DDL) (shardKey : String) : Option String :=
  match node.action with
  | .alterDropColumn =>
    if shardKey = node.dropColumnName then
      some "unsupported: cannot.drop.the.column.on.shard.key"
    else none
  | .alterModifyColumn =>
    if shardKey = node.modifyColumnDef.name then
      some "unsupported: cannot.modify.the.column.on.shard.key"
    else if isUniqueOrKeyOpt node.modifyColumnDef.keyOpt then
      some (constraintErr shardKey)
    else none
  | .alterAddColumn =>
    if node.tableSpec.columns.any fun col => isUniqueOrKeyOpt col.keyOpt then
      some (constraintErr shardKey)
    else if node.tableSpec.indexes.any fun index => index.info.unique || index.info.primary then
      some (constraintErr shardKey)
    else none
  | _ => none

/-- The per-segment rewriting of the loop body of `Build`: the raw SQL is
stripped of its first two (unqualified reference) or four (qualified
reference) backticks, and the logical name — `table`, or the literal
`database.table` — is substituted by the backend-qualified
`` `database`.`segTable` `` through `\b(name)\b` replace-all. -/
def rewriteSegmentQuery (rawQuery database table : String) (qualifierEmpty : Bool)
    (segTableName : String) : String :=
  let segTable := "`" ++ database ++ "`.`" ++ segTableName ++ "`"
  if qualifierEmpty then
    reReplaceAll table segTable (String.mk (goReplaceTick 2 rawQuery.data))
  else
    let newTable := database ++ "." ++ table
    reReplaceAll newTable segTable (String.mk (goReplaceTick 4 rawQuery.data))

/-- The database resolution at the top of the default branch of `Build`
(`database := p.database; if !node.Table.Qualifier.IsEmpty() { database =
node.Table.Qualifier.String() }`): the table's qualifier when non-empty,
otherwise the session default database. -/
def resolvedDatabase (p : DDLPlan) : String :=
  if p.node.table.qualifier = "" then p.database else p.node.table.qualifier

/-- Translation of `DDLPlan.Build`.  Returns the updated plan and the
error, if any; Go mutates `p` in place and returns only the error, and on
every error path nothing has been appended to `p.Querys`. -/
def ddlBuild (r : Router) (p : DDLPlan) : DDLPlan × Option String :=
  if p.node.action = .createDB then ({ p with reqMode := .scatter }, none)
  else
    match r.shardKey (resolvedDatabase p) p.node.table.name with
    | .error e => (p, some e)
    | .ok shardKey =>
      match (if shardKey ≠ "" then checkShardKeyOps p.node shardKey else none) with
      | some e => (p, some e)
      | none =>
        match r.lookup (resolvedDatabase p) p.node.table.name with
        | .error e => (p, some e)
        | .ok segments =>
          ({ p with querys := p.querys ++ segments.map fun segment =>
            { query := rewriteSegmentQuery p.rawQuery (resolvedDatabase p)
                p.node.table.name (p.node.table.qualifier = "") segment.table
              backend := segment.backend
              range := segment.range : QueryTuple } }, none)

/-! ## Scanning auxiliaries and their laws -/

/-- The character of the original input standing just before the position
reached after consuming `l`, when `p` stood before `l`. -/
def prevAfter (p : Option Char) : List Char → Option Char
  | [] => p
  | c :: rest => prevAfter (some c) rest

/-- Whether `\b(pat)\b` has a match somewhere in `s` (with `p` the character
preceding `s`). -/
def hasBMatch (pat : List RAtom) : Option Char → List Char → Bool
  | _, [] => false
  | p, c :: rest => bmatchCond pat p (c :: rest) || hasBMatch pat (some c) rest

/-- Whether `\b(pat)\b` has a match starting inside the prefix `u` of `u ++ t`
(the match may extend into `t`). -/
def hasBMatchIn (pat : List RAtom) : Option Char → List Char → List Char → Bool
  | _, [], _ => false
  | p, c :: rest, t => bmatchCond pat p (c :: (rest ++ t)) || hasBMatchIn pat (some c) rest t

/-! ## Spec-side rewriter (formalised from the words of §4.5)

These definitions follow the specification's description of the query
rewriter, for comparison with the code-side `rewriteSegmentQuery`. -/

theorem goReplaceTick_zero : ∀ l : List Char, goReplaceTick 0 l = l
  | [] => rfl
  | _ :: _ => rfl

theorem goReplaceTick_cons_tick (n : Nat) (l : List Char) :
    goReplaceTick (n + 1) ('`' :: l) = goReplaceTick n l := by
  simp [goReplaceTick]

theorem goReplaceTick_append_of_not_mem (n : Nat) {u : List Char} (v : List Char)
    (h : '`' ∉ u) : goReplaceTick n (u ++ v) = u ++ goReplaceTick n v := by
  induction u generalizing n with
  | nil => simp
  | cons c rest ih =>
    have hc : ¬ c = '`' := fun hc => h (by simp [hc])
    have hr : '`' ∉ rest := fun hr => h (List.mem_cons_of_mem _ hr)
    cases n with
    | zero => simp [goReplaceTick_zero]
    | succ n => simp [goReplaceTick, hc, ih _ hr]

theorem goReplaceTick_nil (n : Nat) : goReplaceTick n [] = [] := by
  cases n <;> rfl

theorem goReplaceTick_of_not_mem (n : Nat) {l : List Char} (h : '`' ∉ l) :
    goReplaceTick n l = l := by
  have := goReplaceTick_append_of_not_mem n [] h
  simpa [goReplaceTick_nil] using this

theorem compileAtoms_length (l : List Char) : (compileAtoms l).length = l.length := by
  simp [compileAtoms]

/-- The compiled pattern of a name always matches that very name. -/
theorem patMatchesAt_compileAtoms_self (l : List Char) :
    patMatchesAt (compileAtoms l) l = true := by
  induction l with
  | nil => rfl
  | cons c rest ih =>
    by_cases hc : c = '.' <;> simp_all [compileAtoms, patMatchesAt, atomMatches]

/-- A full-length match survives appending a continuation. -/
theorem patMatchesAt_append {pat : List RAtom} {m : List Char} (t : List Char)
    (hm : patMatchesAt pat m = true) (hl : pat.length = m.length) :
    patMatchesAt pat (m ++ t) = true := by
  induction pat generalizing m with
  | nil => simp [patMatchesAt]
  | cons a pa ih =>
    cases m with
    | nil => simp at hl
    | cons c m' =>
      simp only [patMatchesAt, Bool.and_eq_true] at hm
      simp only [List.length_cons, Nat.succ.injEq] at hl
      simp [patMatchesAt, hm.1, ih hm.2 hl]

theorem prevAfter_some_eq_getLast? (c : Char) (l : List Char) :
    prevAfter (some c) l = (c :: l).getLast? := by
  induction l generalizing c with
  | nil => rfl
  | cons d rest ih => simp [prevAfter, ih d, List.getLast?_cons_cons]

/-- Consuming `m` matched characters just skips over them, tracking the
preceding character. -/
theorem scanGo_skip (pat : List RAtom) (rep : List Char) :
    ∀ (m t : List Char) (p : Option Char),
      scanGo pat rep m.length p (m ++ t) = scanGo pat rep 0 (prevAfter p m) t
  | [], t, p => rfl
  | c :: m', t, p => by
    simpa [scanGo, prevAfter] using scanGo_skip pat rep m' t (some c)

/-- No match anywhere: `ReplaceAllString` is the identity. -/
theorem scanGo_of_no_match (pat : List RAtom) (rep : List Char) :
    ∀ {p : Option Char} {s : List Char}, hasBMatch pat p s = false →
      scanGo pat rep 0 p s = s := by
  intro p s
  induction s generalizing p with
  | nil => intro _; rfl
  | cons c rest ih =>
    intro h
    simp only [hasBMatch, Bool.or_eq_false_iff] at h
    simp [scanGo, h.1, ih h.2]

/-- No match starting inside the prefix `u`: the scan copies `u` verbatim
and carries on. -/
theorem scanGo_append_of_no_match (pat : List RAtom) (rep : List Char) :
    ∀ {p : Option Char} {u : List Char} (v : List Char), hasBMatchIn pat p u v = false →
      scanGo pat rep 0 p (u ++ v) = u ++ scanGo pat rep 0 (prevAfter p u) v := by
  intro p u
  induction u generalizing p with
  | nil => intro v _; rfl
  | cons c rest ih =>
    intro v h
    simp only [hasBMatchIn, Bool.or_eq_false_iff] at h
    rw [List.cons_append, scanGo, if_neg (by simp [h.1])]
    simp [prevAfter, ih v h.2]

/-- A bounded match at the head is replaced and the scan resumes after it. -/
theorem scanGo_splice (pat : List RAtom) (rep : List Char) {p : Option Char}
    {m : List Char} (t : List Char) (hne : pat ≠ [])
    (hm : patMatchesAt pat m = true) (hl : pat.length = m.length)
    (hb1 : wordBoundary p m.head? = true)
    (hb2 : wordBoundary m.getLast? t.head? = true) :
    scanGo pat rep 0 p (m ++ t) = rep ++ scanGo pat rep 0 m.getLast? t := by
  cases m with
  | nil =>
    have : pat = [] := List.length_eq_zero.mp (by simpa using hl)
    exact absurd this hne
  | cons c m' =>
    have hcond : bmatchCond pat p (c :: (m' ++ t)) = true := by
      have htake : (c :: (m' ++ t)).take pat.length = c :: m' := by
        rw [← List.cons_append]; exact List.take_left' hl.symm
      have hdrop : (c :: (m' ++ t)).drop pat.length = t := by
        rw [← List.cons_append, hl]; exact List.drop_left _ _
      simp only [bmatchCond, Bool.and_eq_true]
      refine ⟨⟨⟨?_, ?_⟩, ?_⟩, ?_⟩
      · simpa using fun h => hne h
      · simpa using patMatchesAt_append t hm hl
      · simpa using hb1
      · rw [htake, hdrop]; exact hb2
    have hlen : pat.length - 1 = m'.length := by
      rw [hl]; rfl
    rw [List.cons_append, scanGo, if_pos hcond, hlen, scanGo_skip,
      prevAfter_some_eq_getLast?]

theorem wordBoundary_true_iff (a b : Option Char) :
    wordBoundary a b = true ↔ isWordOpt a ≠ isWordOpt b := by
  simp [wordBoundary, bne_iff_ne]

theorem head?_word {l : List Char} (h1 : l ≠ []) (h2 : ∀ c ∈ l, isWordChar c = true) :
    isWordOpt l.head? = true := by
  cases l with
  | nil => exact absurd rfl h1
  | cons c rest => exact h2 c (List.mem_cons_self c rest)

theorem getLast?_word {l : List Char} (h1 : l ≠ []) (h2 : ∀ c ∈ l, isWordChar c = true) :
    isWordOpt l.getLast? = true := by
  rw [List.getLast?_eq_getLast l h1]
  exact h2 _ (List.getLast_mem h1)

theorem not_tick_of_word {l : List Char} (h2 : ∀ c ∈ l, isWordChar c = true) :
    '`' ∉ l := fun hmem => absurd (h2 _ hmem) (by decide)

theorem compileAtoms_ne_nil {l : List Char} (h : l ≠ []) : compileAtoms l ≠ [] := by
  cases l with
  | nil => exact absurd rfl h
  | cons c rest => simp [compileAtoms]

/-- A word boundary transfers to any other word character on the right. -/
theorem wordBoundary_congr_right {a b b' : Option Char}
    (h : wordBoundary a b = true) (hb : isWordOpt b = true) (hb' : isWordOpt b' = true) :
    wordBoundary a b' = true := by
  rw [wordBoundary_true_iff] at h ⊢
  rw [hb] at h
  rw [hb']
  exact h

/-- A word boundary transfers to any other word character on the left. -/
theorem wordBoundary_congr_left {a a' b : Option Char}
    (h : wordBoundary a b = true) (ha : isWordOpt a = true) (ha' : isWordOpt a' = true) :
    wordBoundary a' b = true := by
  rw [wordBoundary_true_iff] at h ⊢
  rw [ha] at h
  rw [ha']
  exact h

theorem getLast?_append_cons {l m : List Char} {a : Char} (hm : m ≠ []) :
    (l ++ a :: m).getLast? = m.getLast? := by
  cases m with
  | nil => exact absurd rfl hm
  | cons c d =>
    rw [List.getLast?_append, List.getLast?_cons_cons,
      List.getLast?_eq_getLast (c :: d) (by simp)]
    rfl

/-- One whole-word occurrence surrounded by match-free context: the
replace-all yields `u ++ rep ++ v`. -/
theorem scanGo_context (pat : List RAtom) (rep : List Char)
    {u m : List Char} (v : List Char)
    (hne : pat ≠ []) (hm : patMatchesAt pat m = true) (hl : pat.length = m.length)
    (hu : hasBMatchIn pat none u (m ++ v) = false)
    (hb1 : wordBoundary (prevAfter none u) m.head? = true)
    (hb2 : wordBoundary m.getLast? v.head? = true)
    (hv : hasBMatch pat m.getLast? v = false) :
    scanGo pat rep 0 none (u ++ (m ++ v)) = u ++ (rep ++ v) := by
  rw [scanGo_append_of_no_match pat rep (m ++ v) hu,
    scanGo_splice pat rep v hne hm hl hb1 hb2,
    scanGo_of_no_match pat rep hv]

theorem goReplaceTick_cons_of_ne (n : Nat) {c : Char} (hc : ¬ c = '`') (l : List Char) :
    goReplaceTick (n + 1) (c :: l) = c :: goReplaceTick (n + 1) l := by
  simp [goReplaceTick, hc]

/-- Stripping four backticks from a backend-qualified `` `db`.`phys` ``
prefix form. -/
theorem goReplaceTick_qualified_shape (db phys v : List Char)
    (hdb : '`' ∉ db) (hphys : '`' ∉ phys) :
    goReplaceTick 4 ('`' :: (db ++ ('`' :: '.' :: '`' :: (phys ++ ('`' :: v))))) =
      db ++ '.' :: (phys ++ v) := by
  rw [goReplaceTick_cons_tick, goReplaceTick_append_of_not_mem _ _ hdb,
    goReplaceTick_cons_tick, goReplaceTick_cons_of_ne _ (by decide),
    goReplaceTick_cons_tick, goReplaceTick_append_of_not_mem _ _ hphys,
    goReplaceTick_cons_tick, goReplaceTick_zero]

/-- When the shard key lookup, the constraint checks and the segment
lookup all pass, `Build` appends exactly one rewritten tuple per segment. -/
theorem ddlBuild_ok (p : DDLPlan) (r : Router) (sk : String) (segs : List Segment)
    (h1 : p.node.action ≠ .createDB)
    (hsk : r.shardKey (resolvedDatabase p) p.node.table.name = .ok sk)
    (hchk : (if sk ≠ "" then checkShardKeyOps p.node sk else none) = none)
    (hlk : r.lookup (resolvedDatabase p) p.node.table.name = .ok segs) :
    ddlBuild r p = ({ p with querys := p.querys ++ segs.map fun segment =>
      { query := rewriteSegmentQuery p.rawQuery (resolvedDatabase p)
          p.node.table.name (p.node.table.qualifier = "") segment.table
        backend := segment.backend
        range := segment.range : QueryTuple } }, none) := by
  unfold ddlBuild
  rw [if_neg h1]
  simp only [hsk, hchk, hlk]

/-! ## Claims -/

/-- C1, counterexample: the claim also asserts the Scatter short-circuit
for DROP DATABASE, but `Build` matches only the CREATE DATABASE action
string: a DROP DATABASE node takes the default branch, consults the
router, and with an erroring router `Build` fails instead of succeeding
with a Scatter plan. -/
theorem c1_counterexample :
    (ddlBuild
        ⟨fun _ _ => .error "mock.router.error", fun _ _ => .error "mock.router.error"⟩
        (newDDLPlan "db1" "drop database test"
          ⟨.dropDB, ⟨"", ""⟩, "", ⟨"", .colKeyNone⟩, ⟨[], []⟩⟩)).2 =
      some "mock.router.error" ∧
    (ddlBuild
        ⟨fun _ _ => .error "mock.router.error", fun _ _ => .error "mock.router.error"⟩
        (newDDLPlan "db1" "drop database test"
          ⟨.dropDB, ⟨"", ""⟩, "", ⟨"", .colKeyNone⟩, ⟨[], []⟩⟩)).1.reqMode ≠
      RequestMode.scatter := by
  constructor
  · rfl
  · decide

/-- C1 (amended): for every CREATE DATABASE statement, `Build` succeeds
with requestMode = Scatter and the queries list untouched (empty for a
fresh plan), independently of the router — no router call is made; a DROP
DATABASE statement instead takes the default branch and consults the
router, whose error it propagates. -/
theorem c1_theorem (p : DDLPlan) (r : Router) :
    (p.node.action = .createDB →
      ddlBuild r p = ({ p with reqMode := .scatter }, none)) ∧
    (∀ e, p.node.action = .dropDB →
      r.shardKey (resolvedDatabase p) p.node.table.name = .error e →
      ddlBuild r p = (p, some e)) := by
  constructor
  · intro h
    unfold ddlBuild
    rw [if_pos h]
  · intro e h hsk
    unfold ddlBuild
    rw [if_neg (by simp [h])]
    simp only [hsk]

/-- C1 witness: both parts of the amended claim at concrete inputs. -/
theorem c1_witness :
    ddlBuild ⟨fun _ _ => .error "x", fun _ _ => .error "x"⟩
        (newDDLPlan "db1" "create database test"
          ⟨.createDB, ⟨"", ""⟩, "", ⟨"", .colKeyNone⟩, ⟨[], []⟩⟩) =
      ({ newDDLPlan "db1" "create database test"
            ⟨.createDB, ⟨"", ""⟩, "", ⟨"", .colKeyNone⟩, ⟨[], []⟩⟩ with
          reqMode := RequestMode.scatter }, none) ∧
    ddlBuild ⟨fun _ _ => .error "e1", fun _ _ => .error "e1"⟩
        (newDDLPlan "db1" "drop database test"
          ⟨.dropDB, ⟨"", ""⟩, "", ⟨"", .colKeyNone⟩, ⟨[], []⟩⟩) =
      (newDDLPlan "db1" "drop database test"
          ⟨.dropDB, ⟨"", ""⟩, "", ⟨"", .colKeyNone⟩, ⟨[], []⟩⟩, some "e1") :=
  ⟨(c1_theorem _ _).1 rfl, (c1_theorem _ _).2 "e1" rfl rfl⟩

/-- C4: every DDL action other than CREATE DATABASE / DROP DATABASE that
builds successfully leaves the plan's request mode at Targeted — the
default branch of `Build` never assigns the mode, so a fresh plan's zero
value remains. -/
theorem c4_theorem (p : DDLPlan) (r : Router)
    (h1 : p.node.action ≠ .createDB) (_h2 : p.node.action ≠ .dropDB)
    (h0 : p.reqMode = .targeted) (hok : (ddlBuild r p).2 = none) :
    (ddlBuild r p).1.reqMode = .targeted := by
  unfold ddlBuild at hok ⊢
  rw [if_neg h1] at hok ⊢
  cases hsk : r.shardKey (resolvedDatabase p) p.node.table.name with
  | error e => simp only [hsk] at hok; exact absurd hok (by simp)
  | ok sk =>
    simp only [hsk] at hok ⊢
    cases hchk : (if sk ≠ "" then checkShardKeyOps p.node sk else none) with
    | some e => simp only [hchk] at hok; exact absurd hok (by simp)
    | none =>
      simp only [hchk] at hok ⊢
      cases hlk : r.lookup (resolvedDatabase p) p.node.table.name with
      | error e => simp only [hlk] at hok; exact absurd hok (by simp)
      | ok segs => simp only [hlk]; exact h0

/-- C4 witness: a CREATE TABLE on a one-segment router builds successfully
and the resulting plan is targeted. -/
theorem c4_witness :
    (ddlBuild ⟨fun _ _ => .ok "", fun _ _ => .ok [⟨"t1_0000", "B0", "r0"⟩]⟩
        (newDDLPlan "test" "create table t1(a int)"
          ⟨.createTable, ⟨"t1", ""⟩, "", ⟨"", .colKeyNone⟩, ⟨[], []⟩⟩)).1.reqMode =
      RequestMode.targeted :=
  c4_theorem _ _ (by decide) (by decide) rfl rfl

/-- C6: with a non-empty shard key, `Build` rejects AlterDropColumn on the
shard-key column and AlterModifyColumn of the shard-key column with the
exact unsupported messages; with an empty shard key these ALTER variants
pass the shard-key checks and build successfully. -/
theorem c6_theorem (p : DDLPlan) (r : Router) :
    (∀ sk, p.node.action = .alterDropColumn →
      r.shardKey (resolvedDatabase p) p.node.table.name = .ok sk → sk ≠ "" →
      sk = p.node.dropColumnName →
      ddlBuild r p = (p, some "unsupported: cannot.drop.the.column.on.shard.key")) ∧
    (∀ sk, p.node.action = .alterModifyColumn →
      r.shardKey (resolvedDatabase p) p.node.table.name = .ok sk → sk ≠ "" →
      sk = p.node.modifyColumnDef.name →
      ddlBuild r p = (p, some "unsupported: cannot.modify.the.column.on.shard.key")) ∧
    (∀ segs, (p.node.action = .alterDropColumn ∨ p.node.action = .alterModifyColumn) →
      r.shardKey (resolvedDatabase p) p.node.table.name = .ok "" →
      r.lookup (resolvedDatabase p) p.node.table.name = .ok segs →
      (ddlBuild r p).2 = none) := by
  refine ⟨?_, ?_, ?_⟩
  · intro sk hA hsk hsk' heq
    have hchk : (if sk ≠ "" then checkShardKeyOps p.node sk else none) =
        some "unsupported: cannot.drop.the.column.on.shard.key" := by
      rw [if_pos hsk']
      simp [checkShardKeyOps, hA, heq]
    unfold ddlBuild
    rw [if_neg (by simp [hA])]
    simp only [hsk, hchk]
  · intro sk hA hsk hsk' heq
    have hchk : (if sk ≠ "" then checkShardKeyOps p.node sk else none) =
        some "unsupported: cannot.modify.the.column.on.shard.key" := by
      rw [if_pos hsk']
      simp [checkShardKeyOps, hA, heq]
    unfold ddlBuild
    rw [if_neg (by simp [hA])]
    simp only [hsk, hchk]
  · intro segs hA hsk hlk
    have h1 : p.node.action ≠ .createDB := by
      rcases hA with h | h <;> simp [h]
    have hchk : (if ("" : String) ≠ "" then checkShardKeyOps p.node "" else none) = none := by
      simp
    rw [ddlBuild_ok p r "" segs h1 hsk hchk hlk]

/-- C6 witness: the three parts at concrete inputs (shard key `id`;
dropping `id`, modifying `id`, and the empty-shard-key pass-through). -/
theorem c6_witness :
    ddlBuild ⟨fun _ _ => .ok "id", fun _ _ => .ok [⟨"t1_0000", "B0", "r0"⟩]⟩
        (newDDLPlan "test" "alter table t1 drop column id"
          ⟨.alterDropColumn, ⟨"t1", ""⟩, "id", ⟨"", .colKeyNone⟩, ⟨[], []⟩⟩) =
      (newDDLPlan "test" "alter table t1 drop column id"
          ⟨.alterDropColumn, ⟨"t1", ""⟩, "id", ⟨"", .colKeyNone⟩, ⟨[], []⟩⟩,
        some "unsupported: cannot.drop.the.column.on.shard.key") ∧
    ddlBuild ⟨fun _ _ => .ok "id", fun _ _ => .ok [⟨"t1_0000", "B0", "r0"⟩]⟩
        (newDDLPlan "test" "alter table t1 modify column id bigint"
          ⟨.alterModifyColumn, ⟨"t1", ""⟩, "", ⟨"id", .colKeyNone⟩, ⟨[], []⟩⟩) =
      (newDDLPlan "test" "alter table t1 modify column id bigint"
          ⟨.alterModifyColumn, ⟨"t1", ""⟩, "", ⟨"id", .colKeyNone⟩, ⟨[], []⟩⟩,
        some "unsupported: cannot.modify.the.column.on.shard.key") ∧
    (ddlBuild ⟨fun _ _ => .ok "", fun _ _ => .ok [⟨"t2_backend", "B0", "r0"⟩]⟩
        (newDDLPlan "test" "alter table t2 drop column c2"
          ⟨.alterDropColumn, ⟨"t2", ""⟩, "c2", ⟨"", .colKeyNone⟩, ⟨[], []⟩⟩)).2 = none :=
  ⟨(c6_theorem _ _).1 "id" rfl rfl (by decide) rfl,
   (c6_theorem _ _).2.1 "id" rfl rfl (by decide) rfl,
   (c6_theorem _ _).2.2 [⟨"t2_backend", "B0", "r0"⟩] (Or.inl rfl) rfl rfl⟩

/-- C7: `Build` is fail-fast — a ShardKey error, and a Lookup error when
the checks before it pass, are each returned unchanged with the plan (and
in particular its query list) untouched. -/
theorem c7_theorem (p : DDLPlan) (r : Router) :
    (∀ e, p.node.action ≠ .createDB →
      r.shardKey (resolvedDatabase p) p.node.table.name = .error e →
      ddlBuild r p = (p, some e)) ∧
    (∀ sk e, p.node.action ≠ .createDB →
      r.shardKey (resolvedDatabase p) p.node.table.name = .ok sk →
      (if sk ≠ "" then checkShardKeyOps p.node sk else none) = none →
      r.lookup (resolvedDatabase p) p.node.table.name = .error e →
      ddlBuild r p = (p, some e)) := by
  constructor
  · intro e h1 hsk
    unfold ddlBuild
    rw [if_neg h1]
    simp only [hsk]
  · intro sk e h1 hsk hchk hlk
    unfold ddlBuild
    rw [if_neg h1]
    simp only [hsk, hchk, hlk]

/-- C7 witness: both error propagations at concrete inputs, with the plan
returned unchanged (queries still empty). -/
theorem c7_witness :
    ddlBuild ⟨fun _ _ => .error "Unknown database 'xx'", fun _ _ => .ok []⟩
        (newDDLPlan "test" "drop table t1"
          ⟨.dropTable, ⟨"t1", "xx"⟩, "", ⟨"", .colKeyNone⟩, ⟨[], []⟩⟩) =
      (newDDLPlan "test" "drop table t1"
          ⟨.dropTable, ⟨"t1", "xx"⟩, "", ⟨"", .colKeyNone⟩, ⟨[], []⟩⟩,
        some "Unknown database 'xx'") ∧
    ddlBuild ⟨fun _ _ => .ok "", fun _ _ => .error "Table 't1' doesn't exist"⟩
        (newDDLPlan "test" "truncate table t1"
          ⟨.truncateTable, ⟨"t1", ""⟩, "", ⟨"", .colKeyNone⟩, ⟨[], []⟩⟩) =
      (newDDLPlan "test" "truncate table t1"
          ⟨.truncateTable, ⟨"t1", ""⟩, "", ⟨"", .colKeyNone⟩, ⟨[], []⟩⟩,
        some "Table 't1' doesn't exist") :=
  ⟨(c7_theorem _ _).1 "Unknown database 'xx'" (by decide) rfl,
   (c7_theorem _ _).2 "" "Table 't1' doesn't exist" (by decide) rfl (by simp) rfl⟩

/-- C5, counterexample: the claim says a column-level key option on the
sharding key column itself is accepted at AlterAddColumn; the code rejects
it — adding column `id` (the shard key) with a Unique option fails with
the constraint message. -/
theorem c5_counterexample :
    (ddlBuild ⟨fun _ _ => .ok "id", fun _ _ => .ok [⟨"t1_0000", "B0", "r0"⟩]⟩
        (newDDLPlan "test" "alter table t1 add column(id int unique)"
          ⟨.alterAddColumn, ⟨"t1", ""⟩, "", ⟨"", .colKeyNone⟩,
            ⟨[⟨"id", .colKeyUnique⟩], []⟩⟩)).2 =
      some "The unique/primary constraint should be only defined on the sharding key column[id]" := by
  rfl

/-- C5 (amended): for AlterAddColumn on a table with a non-empty shard
key, any added column carrying a key option Unique / UniqueKey / Primary /
Key — the sharding key column included — fails with the constraint
message; so does any added index with the unique or primary flag set,
regardless of its columns; with no such column or index the statement
passes the check and builds. -/
theorem c5_theorem (p : DDLPlan) (r : Router) (sk : String)
    (hA : p.node.action = .alterAddColumn)
    (hsk : r.shardKey (resolvedDatabase p) p.node.table.name = .ok sk)
    (hsk' : sk ≠ "") :
    ((p.node.tableSpec.columns.any fun col => isUniqueOrKeyOpt col.keyOpt) = true →
      ddlBuild r p = (p, some (constraintErr sk))) ∧
    ((p.node.tableSpec.columns.any fun col => isUniqueOrKeyOpt col.keyOpt) = false →
      (p.node.tableSpec.indexes.any fun index => index.info.unique || index.info.primary) = true →
      ddlBuild r p = (p, some (constraintErr sk))) ∧
    ((p.node.tableSpec.columns.any fun col => isUniqueOrKeyOpt col.keyOpt) = false →
      (p.node.tableSpec.indexes.any fun index => index.info.unique || index.info.primary) = false →
      ∀ segs, r.lookup (resolvedDatabase p) p.node.table.name = .ok segs →
        (ddlBuild r p).2 = none) := by
  refine ⟨?_, ?_, ?_⟩
  · intro hcol
    have hchk : (if sk ≠ "" then checkShardKeyOps p.node sk else none) =
        some (constraintErr sk) := by
      rw [if_pos hsk']
      simp [checkShardKeyOps, hA, hcol]
    unfold ddlBuild
    rw [if_neg (by simp [hA])]
    simp only [hsk, hchk]
  · intro hcol hidx
    have hchk : (if sk ≠ "" then checkShardKeyOps p.node sk else none) =
        some (constraintErr sk) := by
      rw [if_pos hsk']
      simp [checkShardKeyOps, hA, hcol, hidx]
    unfold ddlBuild
    rw [if_neg (by simp [hA])]
    simp only [hsk, hchk]
  · intro hcol hidx segs hlk
    have hchk : (if sk ≠ "" then checkShardKeyOps p.node sk else none) = none := by
      rw [if_pos hsk']
      simp [checkShardKeyOps, hA, hcol, hidx]
    rw [ddlBuild_ok p r sk segs (by simp [hA]) hsk hchk hlk]

/-- C5 witness: the three parts at concrete inputs — a unique column on a
non-shard-key name, a primary index, and a clean add-column that builds. -/
theorem c5_witness :
    ddlBuild ⟨fun _ _ => .ok "id", fun _ _ => .ok [⟨"t1_0000", "B0", "r0"⟩]⟩
        (newDDLPlan "test" "alter table t1 add column(c1 int unique)"
          ⟨.alterAddColumn, ⟨"t1", ""⟩, "", ⟨"", .colKeyNone⟩,
            ⟨[⟨"c1", .colKeyUnique⟩], []⟩⟩) =
      (newDDLPlan "test" "alter table t1 add column(c1 int unique)"
          ⟨.alterAddColumn, ⟨"t1", ""⟩, "", ⟨"", .colKeyNone⟩,
            ⟨[⟨"c1", .colKeyUnique⟩], []⟩⟩,
        some "The unique/primary constraint should be only defined on the sharding key column[id]") ∧
    ddlBuild ⟨fun _ _ => .ok "id", fun _ _ => .ok [⟨"t1_0000", "B0", "r0"⟩]⟩
        (newDDLPlan "test" "alter table t1 add unique index idx1(id)"
          ⟨.alterAddColumn, ⟨"t1", ""⟩, "", ⟨"", .colKeyNone⟩,
            ⟨[], [⟨⟨true, false⟩⟩]⟩⟩) =
      (newDDLPlan "test" "alter table t1 add unique index idx1(id)"
          ⟨.alterAddColumn, ⟨"t1", ""⟩, "", ⟨"", .colKeyNone⟩,
            ⟨[], [⟨⟨true, false⟩⟩]⟩⟩,
        some "The unique/primary constraint should be only defined on the sharding key column[id]") ∧
    (ddlBuild ⟨fun _ _ => .ok "id", fun _ _ => .ok [⟨"t1_0000", "B0", "r0"⟩]⟩
        (newDDLPlan "test" "alter table t1 add column(c1 int)"
          ⟨.alterAddColumn, ⟨"t1", ""⟩, "", ⟨"", .colKeyNone⟩,
            ⟨[⟨"c1", .colKeyNone⟩], []⟩⟩)).2 = none :=
  ⟨(c5_theorem _ _ "id" rfl rfl (by decide)).1 rfl,
   (c5_theorem _ _ "id" rfl rfl (by decide)).2.1 rfl rfl,
   (c5_theorem _ _ "id" rfl rfl (by decide)).2.2 rfl rfl [⟨"t1_0000", "B0", "r0"⟩] rfl⟩

/-- C3: for every accepted non-database DDL statement, `Build` emits
exactly one query tuple per segment returned by the router's lookup, in
segment order, each carrying that segment's backend and shard-range. -/
theorem c3_theorem (p : DDLPlan) (r : Router) (segs : List Segment)
    (h1 : p.node.action ≠ .createDB) (_h2 : p.node.action ≠ .dropDB)
    (hq : p.querys = [])
    (hlk : r.lookup (resolvedDatabase p) p.node.table.name = .ok segs)
    (hok : (ddlBuild r p).2 = none) :
    (ddlBuild r p).1.querys.length = segs.length ∧
    ∀ i : Nat,
      ((ddlBuild r p).1.querys[i]?.map QueryTuple.backend) = segs[i]?.map Segment.backend ∧
      ((ddlBuild r p).1.querys[i]?.map QueryTuple.range) = segs[i]?.map Segment.range := by
  have hbuild : ∃ sk,
      r.shardKey (resolvedDatabase p) p.node.table.name = .ok sk ∧
      (if sk ≠ "" then checkShardKeyOps p.node sk else none) = none := by
    unfold ddlBuild at hok
    rw [if_neg h1] at hok
    cases hsk : r.shardKey (resolvedDatabase p) p.node.table.name with
    | error e => simp only [hsk] at hok; exact absurd hok (by simp)
    | ok sk =>
      simp only [hsk] at hok
      cases hchk : (if sk ≠ "" then checkShardKeyOps p.node sk else none) with
      | some e => simp only [hchk] at hok; exact absurd hok (by simp)
      | none => exact ⟨sk, rfl, hchk⟩
  obtain ⟨sk, hsk, hchk⟩ := hbuild
  rw [ddlBuild_ok p r sk segs h1 hsk hchk hlk]
  refine ⟨by simp [hq], fun i => ?_⟩
  constructor
  · simp only [hq, List.nil_append, List.getElem?_map, Option.map_map]
    cases segs[i]? <;> rfl
  · simp only [hq, List.nil_append, List.getElem?_map, Option.map_map]
    cases segs[i]? <;> rfl

/-- C3 witness: a two-segment lookup yields two tuples with the segments'
backends and ranges in order. -/
theorem c3_witness :
    (ddlBuild
        ⟨fun _ _ => .ok "id",
         fun _ _ => .ok [⟨"t1_0000", "B0", "[0-512)"⟩, ⟨"t1_0001", "B1", "[512-1024)"⟩]⟩
        (newDDLPlan "test" "create table t1(id int, b int) partition by hash(id)"
          ⟨.createTable, ⟨"t1", ""⟩, "", ⟨"", .colKeyNone⟩, ⟨[], []⟩⟩)).1.querys.length = 2 ∧
    ((ddlBuild
        ⟨fun _ _ => .ok "id",
         fun _ _ => .ok [⟨"t1_0000", "B0", "[0-512)"⟩, ⟨"t1_0001", "B1", "[512-1024)"⟩]⟩
        (newDDLPlan "test" "create table t1(id int, b int) partition by hash(id)"
          ⟨.createTable, ⟨"t1", ""⟩, "", ⟨"", .colKeyNone⟩, ⟨[], []⟩⟩)).1.querys[1]?.map
      QueryTuple.backend) = some "B1" := by
  have h := c3_theorem
    (newDDLPlan "test" "create table t1(id int, b int) partition by hash(id)"
      ⟨.createTable, ⟨"t1", ""⟩, "", ⟨"", .colKeyNone⟩, ⟨[], []⟩⟩)
    ⟨fun _ _ => .ok "id",
     fun _ _ => .ok [⟨"t1_0000", "B0", "[0-512)"⟩, ⟨"t1_0001", "B1", "[512-1024)"⟩]⟩
    [⟨"t1_0000", "B0", "[0-512)"⟩, ⟨"t1_0001", "B1", "[512-1024)"⟩]
    (by decide) (by decide) rfl rfl rfl
  exact ⟨h.1, (h.2 1).1⟩

/-- C8: for every non-database DDL statement the planner's behaviour
depends on the router only through its answers at the resolved database
(the table's qualifier when non-empty, else the session database), and
every emitted tuple's SQL is rewritten with that same resolved database in
the backend-qualified identifier. -/
theorem c8_theorem (p : DDLPlan)
    (h1 : p.node.action ≠ .createDB) (_h2 : p.node.action ≠ .dropDB) :
    (∀ r r' : Router,
      r.shardKey (resolvedDatabase p) p.node.table.name =
        r'.shardKey (resolvedDatabase p) p.node.table.name →
      r.lookup (resolvedDatabase p) p.node.table.name =
        r'.lookup (resolvedDatabase p) p.node.table.name →
      ddlBuild r p = ddlBuild r' p) ∧
    (∀ (r : Router) (sk : String) (segs : List Segment),
      r.shardKey (resolvedDatabase p) p.node.table.name = .ok sk →
      (if sk ≠ "" then checkShardKeyOps p.node sk else none) = none →
      r.lookup (resolvedDatabase p) p.node.table.name = .ok segs →
      (ddlBuild r p).1.querys = p.querys ++ segs.map fun segment =>
        { query := rewriteSegmentQuery p.rawQuery (resolvedDatabase p)
            p.node.table.name (p.node.table.qualifier = "") segment.table
          backend := segment.backend
          range := segment.range : QueryTuple }) := by
  constructor
  · intro r r' hsk hlk
    unfold ddlBuild
    rw [if_neg h1, if_neg h1, hsk, hlk]
  · intro r sk segs hsk hchk hlk
    rw [ddlBuild_ok p r sk segs h1 hsk hchk hlk]

/-- C8 witness: with a qualified table `sbtest.t1` and session database
`test`, the plan consults the router at `sbtest` (two routers agreeing
there produce identical plans) and qualifies the rewritten identifier with
`sbtest`. -/
theorem c8_witness :
    ddlBuild ⟨fun db _ => if db = "sbtest" then .ok "" else .error "wrong",
              fun db _ => if db = "sbtest" then .ok [⟨"t1_0000", "B0", "r0"⟩] else .error "wrong"⟩
        (newDDLPlan "test" "drop table sbtest.t1"
          ⟨.dropTable, ⟨"t1", "sbtest"⟩, "", ⟨"", .colKeyNone⟩, ⟨[], []⟩⟩) =
      ddlBuild ⟨fun _ _ => .ok "", fun _ _ => .ok [⟨"t1_0000", "B0", "r0"⟩]⟩
        (newDDLPlan "test" "drop table sbtest.t1"
          ⟨.dropTable, ⟨"t1", "sbtest"⟩, "", ⟨"", .colKeyNone⟩, ⟨[], []⟩⟩) ∧
    (ddlBuild ⟨fun _ _ => .ok "", fun _ _ => .ok [⟨"t1_0000", "B0", "r0"⟩]⟩
        (newDDLPlan "test" "drop table sbtest.t1"
          ⟨.dropTable, ⟨"t1", "sbtest"⟩, "", ⟨"", .colKeyNone⟩, ⟨[], []⟩⟩)).1.querys =
      [{ query := rewriteSegmentQuery "drop table sbtest.t1" "sbtest" "t1" false "t1_0000"
         backend := "B0"
         range := "r0" }] :=
  ⟨(c8_theorem _ (by decide) (by decide)).1 _ _ rfl rfl,
   (c8_theorem _ (by decide) (by decide)).2 _ "" [⟨"t1_0000", "B0", "r0"⟩] rfl (by simp) rfl⟩

/-- C9: on a backtick-free raw SQL carrying exactly one whole-word
occurrence of the (word-character) logical table name, the unqualified
rewrite is the pure textual substitution of that occurrence by
`` `db`.`phys` ``; re-running the rewriter on the produced output — whose
table reference now parses as the qualified `db.phys`, so the physical
table is the new logical name — reproduces the output unchanged: the
rewrite is idempotent. -/
theorem c9_theorem (db tbl phys raw : String) (u v : List Char)
    (hraw : raw.data = u ++ (tbl.data ++ v))
    (htbl : tbl.data ≠ [] ∧ ∀ c ∈ tbl.data, isWordChar c = true)
    (hdb : db.data ≠ [] ∧ ∀ c ∈ db.data, isWordChar c = true)
    (hphys : phys.data ≠ [] ∧ ∀ c ∈ phys.data, isWordChar c = true)
    (hu : '`' ∉ u) (hv : '`' ∉ v)
    (hb1 : wordBoundary (prevAfter none u) tbl.data.head? = true)
    (hb2 : wordBoundary tbl.data.getLast? v.head? = true)
    (hnm1u : hasBMatchIn (compileAtoms tbl.data) none u (tbl.data ++ v) = false)
    (hnm1v : hasBMatch (compileAtoms tbl.data) tbl.data.getLast? v = false)
    (hnm2u : hasBMatchIn (compileAtoms (db ++ "." ++ phys).data) none u
      ((db.data ++ '.' :: phys.data) ++ v) = false)
    (hnm2v : hasBMatch (compileAtoms (db ++ "." ++ phys).data)
      phys.data.getLast? v = false) :
    rewriteSegmentQuery raw db tbl true phys =
      String.mk (u ++ (("`" ++ db ++ "`.`" ++ phys ++ "`").data ++ v)) ∧
    rewriteSegmentQuery
        (String.mk (u ++ (("`" ++ db ++ "`.`" ++ phys ++ "`").data ++ v)))
        db phys false phys =
      String.mk (u ++ (("`" ++ db ++ "`.`" ++ phys ++ "`").data ++ v)) := by
  have htbl_tick : '`' ∉ tbl.data := not_tick_of_word htbl.2
  have hdb_tick : '`' ∉ db.data := not_tick_of_word hdb.2
  have hphys_tick : '`' ∉ phys.data := not_tick_of_word hphys.2
  have hraw_tick : '`' ∉ raw.data := by
    rw [hraw]
    intro hmem
    rcases List.mem_append.mp hmem with h | h
    · exact hu h
    · rcases List.mem_append.mp h with h | h
      · exact htbl_tick h
      · exact hv h
  have hSdata : ("`" ++ db ++ "`.`" ++ phys ++ "`").data =
      '`' :: (db.data ++ ('`' :: '.' :: '`' :: (phys.data ++ ['`']))) := by
    simp [String.data_append, show ("`" : String).data = ['`'] from rfl,
      show ("`.`" : String).data = ['`', '.', '`'] from rfl]
  constructor
  · show reReplaceAll tbl ("`" ++ db ++ "`.`" ++ phys ++ "`")
        (String.mk (goReplaceTick 2 raw.data)) =
      String.mk (u ++ (("`" ++ db ++ "`.`" ++ phys ++ "`").data ++ v))
    refine congrArg String.mk ?_
    show scanGo (compileAtoms tbl.data) ("`" ++ db ++ "`.`" ++ phys ++ "`").data 0 none
        (goReplaceTick 2 raw.data) =
      u ++ (("`" ++ db ++ "`.`" ++ phys ++ "`").data ++ v)
    rw [goReplaceTick_of_not_mem 2 hraw_tick, hraw]
    exact scanGo_context _ _ v (compileAtoms_ne_nil htbl.1)
      (patMatchesAt_compileAtoms_self tbl.data) (compileAtoms_length tbl.data)
      hnm1u hb1 hb2 hnm1v
  · show reReplaceAll (db ++ "." ++ phys) ("`" ++ db ++ "`.`" ++ phys ++ "`")
        (String.mk (goReplaceTick 4 (u ++ (("`" ++ db ++ "`.`" ++ phys ++ "`").data ++ v)))) =
      String.mk (u ++ (("`" ++ db ++ "`.`" ++ phys ++ "`").data ++ v))
    refine congrArg String.mk ?_
    show scanGo (compileAtoms (db ++ "." ++ phys).data)
        ("`" ++ db ++ "`.`" ++ phys ++ "`").data 0 none
        (goReplaceTick 4 (u ++ (("`" ++ db ++ "`.`" ++ phys ++ "`").data ++ v))) =
      u ++ (("`" ++ db ++ "`.`" ++ phys ++ "`").data ++ v)
    have hstrip : goReplaceTick 4 (u ++ (("`" ++ db ++ "`.`" ++ phys ++ "`").data ++ v)) =
        u ++ ((db.data ++ '.' :: phys.data) ++ v) := by
      rw [show ("`" ++ db ++ "`.`" ++ phys ++ "`").data ++ v =
            '`' :: (db.data ++ ('`' :: '.' :: '`' :: (phys.data ++ ('`' :: v)))) from by
          rw [hSdata]; simp,
        goReplaceTick_append_of_not_mem _ _ hu,
        goReplaceTick_qualified_shape db.data phys.data v hdb_tick hphys_tick]
      simp
    rw [hstrip]
    have hdata2 : (db ++ "." ++ phys).data = db.data ++ '.' :: phys.data := by
      simp [String.data_append, show ("." : String).data = ['.'] from rfl]
    have hMne : db.data ++ '.' :: phys.data ≠ [] := by simp
    have hMhead : isWordOpt (db.data ++ '.' :: phys.data).head? = true := by
      cases hdbd : db.data with
      | nil => exact absurd hdbd hdb.1
      | cons c d =>
        have hcw : isWordChar c = true :=
          hdb.2 c (by rw [hdbd]; exact List.mem_cons_self _ _)
        simp only [List.cons_append, List.head?]
        exact hcw
    have hMlast : (db.data ++ '.' :: phys.data).getLast? = phys.data.getLast? :=
      getLast?_append_cons hphys.1
    have hxw : isWordOpt (prevAfter none u) = false := by
      have h1 := head?_word htbl.1 htbl.2
      rw [wordBoundary_true_iff, h1] at hb1
      cases hx : isWordOpt (prevAfter none u)
      · rfl
      · exact absurd hx hb1
    have hvw : isWordOpt v.head? = false := by
      have h1 := getLast?_word htbl.1 htbl.2
      rw [wordBoundary_true_iff, h1] at hb2
      cases hx : isWordOpt v.head?
      · rfl
      · exact absurd hx.symm hb2
    have hb1' : wordBoundary (prevAfter none u) (db.data ++ '.' :: phys.data).head? = true := by
      rw [wordBoundary_true_iff, hxw, hMhead]
      decide
    have hb2' : wordBoundary (db.data ++ '.' :: phys.data).getLast? v.head? = true := by
      rw [wordBoundary_true_iff, hMlast, getLast?_word hphys.1 hphys.2, hvw]
      decide
    rw [hdata2] at hnm2u hnm2v ⊢
    rw [← hMlast] at hnm2v
    exact scanGo_context _ _ v (compileAtoms_ne_nil hMne)
      (patMatchesAt_compileAtoms_self _) (compileAtoms_length _)
      hnm2u hb1' hb2' hnm2v

/-- C9 witness: `create table t1(a int)` with database `test` and physical
table `t1_0000` — the rewrite is the single substitution, and re-running
the rewriter on the output is a no-op. -/
theorem c9_witness :
    rewriteSegmentQuery "create table t1(a int)" "test" "t1" true "t1_0000" =
      String.mk ("create table ".data ++
        (("`" ++ "test" ++ "`.`" ++ "t1_0000" ++ "`").data ++ "(a int)".data)) ∧
    rewriteSegmentQuery
        (String.mk ("create table ".data ++
          (("`" ++ "test" ++ "`.`" ++ "t1_0000" ++ "`").data ++ "(a int)".data)))
        "test" "t1_0000" false "t1_0000" =
      String.mk ("create table ".data ++
        (("`" ++ "test" ++ "`.`" ++ "t1_0000" ++ "`").data ++ "(a int)".data)) :=
  c9_theorem "test" "t1" "t1_0000" "create table t1(a int)"
    "create table ".data "(a int)".data rfl
    (by decide) (by decide) (by decide) (by decide) (by decide)
    (by decide) (by decide) (by decide) (by decide) (by decide) (by decide)

end Radon
